import Mathlib

/-!
Verification development for the RAINS server core (verifier, pending-signature
store, recursive resolver, CBOR message codec).

The Go source is shallowly embedded: Unix timestamps and `time.Duration`
values become `Int` (seconds), `int64` overflow is irrelevant at the values
involved except where `math.MaxInt64` is used as a sentinel, which is kept as
the explicit constant `maxInt64`.  Side effects (notification sending, query
emission, cache mutation) become explicit return values.  Go panics become
`Option`/`Except` failures.
-/

namespace Rainsd

/-- `math.MaxInt64`, used by the Go code as an "uninitialized" sentinel for
`validSince`. -/
def maxInt64 : Int := 9223372036854775807

/-- The mutable validity window `(validSince, validUntil)` carried by
assertion, shard and zone sections (`rainslib` section structs). -/
structure ValidityState where
  validSince : Int := 0
  validUntil : Int := 0
deriving DecidableEq, Repr

/-- Embedding of `AssertionSection.UpdateValidity` /
`ShardSection.UpdateValidity` / `ZoneSection.UpdateValidity`: the three Go
method bodies are textually identical, so they are embedded once over the
shared validity state.  `now` stands for `time.Now().Unix()` (the Go code
calls `time.Now()` repeatedly inside one invocation; the calls are merged
into one instant). -/
def UpdateValidity (st : ValidityState) (validSince validUntil maxValidity now : Int) :
    ValidityState :=
  let st := if st.validSince = 0 then { st with validSince := maxInt64 } else st
  let st :=
    if validSince < st.validSince then
      if validSince > now + maxValidity then { st with validSince := now + maxValidity }
      else { st with validSince := validSince }
    else st
  if validUntil > st.validUntil then
    if validUntil > now + maxValidity then { st with validUntil := now + maxValidity }
    else { st with validUntil := validUntil }
  else st

/-- The three signed-section kinds dispatched on by `updateSectionValidity`. -/
inductive SectionKind where
  | assertion
  | shard
  | zone
deriving DecidableEq, Repr

/-- The configuration fields consulted by the verifier (durations in
seconds). -/
structure Config where
  maxCacheAssertionValidity : Int
  maxCacheShardValidity : Int
  maxCacheZoneValidity : Int
  delegationQueryValidity : Int
deriving Repr

/-- The per-kind `maxValidity` chosen by the `switch` at the top of
`updateSectionValidity`. -/
def Config.maxCacheValidity (cfg : Config) : SectionKind → Int
  | .assertion => cfg.maxCacheAssertionValidity
  | .shard => cfg.maxCacheShardValidity
  | .zone => cfg.maxCacheZoneValidity

/-- Embedding of `updateSectionValidity` (verify.go): picks the intersection
of the public key's and the signature's validity period and hands it to the
section's `UpdateValidity`. -/
def updateSectionValidity (kind : SectionKind) (cfg : Config) (st : ValidityState)
    (pkeyValidSince pkeyValidUntil sigValidSince sigValidUntil now : Int) : ValidityState :=
  let maxValidity := cfg.maxCacheValidity kind
  if pkeyValidSince < sigValidSince then
    if pkeyValidUntil < sigValidUntil then
      UpdateValidity st sigValidSince pkeyValidUntil maxValidity now
    else
      UpdateValidity st sigValidSince sigValidUntil maxValidity now
  else
    if pkeyValidUntil < sigValidUntil then
      UpdateValidity st pkeyValidSince pkeyValidUntil maxValidity now
    else
      UpdateValidity st pkeyValidSince sigValidUntil maxValidity now

end Rainsd

namespace Rainsd

/-- Field-wise characterization of `UpdateValidity`: the two fields are
updated independently (the Go body first normalizes the `validSince = 0`
sentinel, then lowers `validSince`, then raises `validUntil`, each lowering
or raising being clamped at `now + maxValidity`). -/
theorem UpdateValidity_eq (st : ValidityState) (vs vu mv now : Int) :
    UpdateValidity st vs vu mv now =
      { validSince :=
          if vs < (if st.validSince = 0 then maxInt64 else st.validSince) then
            if vs > now + mv then now + mv else vs
          else if st.validSince = 0 then maxInt64 else st.validSince,
        validUntil :=
          if vu > st.validUntil then
            if vu > now + mv then now + mv else vu
          else st.validUntil } := by
  simp only [UpdateValidity]
  split_ifs <;> simp_all

/-- C1: when a signature of a freshly received section (validity window still
uninitialized, i.e. `(0, 0)`) verifies, `updateSectionValidity` stores exactly
the intersection `[max(sigValidSince, keyValidSince), min(sigValidUntil,
keyValidUntil)]` of the signature's and the key's validity, with the upper end
clamped to `now + maxCacheValidity` for the section's kind. -/
theorem claim_C1_section_validity_intersection
    (kind : SectionKind) (cfg : Config) (ps pu ss su now : Int)
    (hpos : 0 < min pu su)
    (hsince : max ps ss ≤ now + cfg.maxCacheValidity kind)
    (hclamp : now + cfg.maxCacheValidity kind < maxInt64) :
    updateSectionValidity kind cfg ⟨0, 0⟩ ps pu ss su now =
      ⟨max ps ss, min (min pu su) (now + cfg.maxCacheValidity kind)⟩ := by
  unfold updateSectionValidity
  simp only [UpdateValidity_eq, maxInt64] at *
  split_ifs <;> simp_all [ValidityState.mk.injEq] <;> omega

/-- Witness for C1 at concrete values: signature valid on `[40, 200]`, key
valid on `[30, 150]`, `now = 100`, `maxCacheAssertionValidity = 20`; the
stored window is `[40, min 150 120] = [40, 120]`. -/
theorem claim_C1_witness :
    (0 : Int) < min 150 200 ∧
      updateSectionValidity .assertion ⟨20, 21, 22, 23⟩ ⟨0, 0⟩ 30 150 40 200 100 =
        ⟨40, 120⟩ :=
  ⟨by decide,
    by
      have h := claim_C1_section_validity_intersection .assertion ⟨20, 21, 22, 23⟩
        30 150 40 200 100 (by decide) (by decide) (by decide)
      simpa using h⟩

/-- C10 counterexample: `UpdateValidity` can strictly DECREASE the stored
`validUntil`.  State `(50, 100)`, call with `validUntil = 200`, `now = 10`,
`maxValidity = 50`: the candidate exceeds `now + maxValidity = 60`, so the
stored `validUntil` is overwritten with `60 < 100`. -/
theorem claim_C10_counterexample :
    (UpdateValidity ⟨50, 100⟩ 50 200 50 10).validUntil = 60 ∧ (60 : Int) < 100 := by
  constructor
  · rfl
  · decide

/-- C10 (amended): for every `UpdateValidity` call, once the section is
initialized (`validSince ≠ 0`) its `validSince` never increases and, whenever
it changes, the new value is at most `now + maxValidity`; `validUntil`,
whenever it changes, is set to a value at most `now + maxValidity`; and
`validUntil` never decreases PROVIDED the stored `validUntil` does not exceed
`now + maxValidity` (which holds in the running system because the stored
value was clamped with an earlier `now`) — without that proviso the clamp can
lower it, as the counterexample shows. -/
theorem claim_C10_validity_monotonicity
    (st : ValidityState) (vs vu maxValidity now : Int) :
    (st.validSince ≠ 0 → (UpdateValidity st vs vu maxValidity now).validSince ≤ st.validSince) ∧
    (st.validSince ≠ 0 → (UpdateValidity st vs vu maxValidity now).validSince ≠ st.validSince →
      (UpdateValidity st vs vu maxValidity now).validSince ≤ now + maxValidity) ∧
    ((UpdateValidity st vs vu maxValidity now).validUntil ≠ st.validUntil →
      (UpdateValidity st vs vu maxValidity now).validUntil ≤ now + maxValidity) ∧
    (st.validUntil ≤ now + maxValidity →
      st.validUntil ≤ (UpdateValidity st vs vu maxValidity now).validUntil) := by
  simp only [UpdateValidity_eq]
  split_ifs <;> simp_all <;> omega

/-- Witness for C10 (amended) at a concrete call: state `(5, 10)`, candidate
window `(3, 20)`, `maxValidity = 100`, `now = 0`. -/
theorem claim_C10_witness :
    (UpdateValidity ⟨5, 10⟩ 3 20 100 0).validSince ≤ 5 ∧
      (10 : Int) ≤ (UpdateValidity ⟨5, 10⟩ 3 20 100 0).validUntil :=
  ⟨(claim_C10_validity_monotonicity ⟨5, 10⟩ 3 20 100 0).1 (by decide),
    (claim_C10_validity_monotonicity ⟨5, 10⟩ 3 20 100 0).2.2.2 (by decide)⟩

/-! ### Section data model (`rainslib`) and the verifier's consistency checks -/

/-- The notification kinds the verifier can send (only `RcvInconsistentMsg`
is emitted on the paths embedded here). -/
inductive NotificationType where
  | rcvInconsistentMsg
deriving DecidableEq, Repr

/-- `rainslib.ObjectType` (the variants named in the data model). -/
inductive ObjType where
  | ip4
  | ip6
  | delegation
  | redirection
  | serviceInfo
  | nameAlias
  | certificate
  | nextKey
  | infraKey
  | externalKey
  | nameset
  | registrar
  | registrant
deriving DecidableEq, Repr

/-- A content object of an assertion (only its type tag is consulted by the
verifier). -/
structure Object where
  type : ObjType
deriving DecidableEq, Repr

/-- `rainslib.Signature`; `data` is the uninterpreted signature payload. -/
structure Signature where
  algorithm : Nat
  keySpace : Nat
  validSince : Int
  validUntil : Int
  data : Nat
deriving DecidableEq, Repr

/-- The `rainslib.RainsKeySpace` keyspace identifier. -/
def RainsKeySpace : Nat := 0

/-- `rainslib.AssertionSection` (validity state handled separately, see
`ValidityState`). -/
structure AssertionSection where
  subjectName : String
  content : List Object
  signatures : List Signature
  subjectZone : String
  context : String
deriving DecidableEq, Repr

/-- `rainslib.ShardSection`. -/
structure ShardSection where
  content : List AssertionSection
  signatures : List Signature
  subjectZone : String
  context : String
  rangeFrom : String
  rangeTo : String
deriving DecidableEq, Repr

/-- An element of a zone's content (`rainslib.ZoneSection.Content` holds
assertions and shards). -/
inductive ZoneContent where
  | assertion (a : AssertionSection)
  | shard (s : ShardSection)
deriving DecidableEq, Repr

/-- `rainslib.ZoneSection`. -/
structure ZoneSection where
  signatures : List Signature
  subjectZone : String
  context : String
  content : List ZoneContent
deriving DecidableEq, Repr

/-- `rainslib.MessageSectionWithSig`: the three signed-section variants the
verifier handles. -/
inductive MessageSectionWithSig where
  | assertion (a : AssertionSection)
  | shard (s : ShardSection)
  | zone (z : ZoneSection)
deriving DecidableEq, Repr

/-- `GetContext`. -/
def MessageSectionWithSig.GetContext : MessageSectionWithSig → String
  | .assertion a => a.context
  | .shard s => s.context
  | .zone z => z.context

/-- `GetSubjectZone`. -/
def MessageSectionWithSig.GetSubjectZone : MessageSectionWithSig → String
  | .assertion a => a.subjectZone
  | .shard s => s.subjectZone
  | .zone z => z.subjectZone

/-- `containedSectionValid`: a contained section's context and subject zone
must equal the outer section's.  On mismatch a `RcvInconsistentMsg`
notification is sent (returned here) and `false` is returned. -/
def containedSectionValid (sec outer : MessageSectionWithSig) :
    Bool × List NotificationType :=
  if sec.GetContext = outer.GetContext ∧ sec.GetSubjectZone = outer.GetSubjectZone then
    (true, [])
  else
    (false, [.rcvInconsistentMsg])

/-- `containedSectionInRange`: the assertion's subject name must lie in the
shard's range, an empty bound meaning no constraint on that side. -/
def containedSectionInRange (subjectName : String) (shard : ShardSection) :
    Bool × List NotificationType :=
  if (shard.rangeFrom ≠ "" ∧ subjectName < shard.rangeFrom) ∨
      (shard.rangeTo ≠ "" ∧ subjectName > shard.rangeTo) then
    (false, [.rcvInconsistentMsg])
  else
    (true, [])

/-- The loop of `containedAssertionsAndShardsValid` over a shard's content
(also used for shards inside zones, where `outer` is the zone): Go
short-circuits `!containedSectionValid(...) || !containedSectionInRange(...)`
and returns on the first violation. -/
def checkShardAssertions (outer : MessageSectionWithSig) (sh : ShardSection) :
    List AssertionSection → Bool × List NotificationType
  | [] => (true, [])
  | a :: rest =>
    let cv := containedSectionValid (.assertion a) outer
    if cv.1 then
      let ir := containedSectionInRange a.subjectName sh
      if ir.1 then checkShardAssertions outer sh rest else (false, ir.2)
    else (false, cv.2)

/-- The loop of `containedAssertionsAndShardsValid` over a zone's content. -/
def checkZoneContent (outer : MessageSectionWithSig) :
    List ZoneContent → Bool × List NotificationType
  | [] => (true, [])
  | .assertion a :: rest =>
    let cv := containedSectionValid (.assertion a) outer
    if cv.1 then checkZoneContent outer rest else (false, cv.2)
  | .shard sh :: rest =>
    let cv := containedSectionValid (.shard sh) outer
    if cv.1 then
      let inner := checkShardAssertions outer sh sh.content
      if inner.1 then checkZoneContent outer rest else (false, inner.2)
    else (false, cv.2)

/-- `containedAssertionsAndShardsValid`: structural consistency of composite
sections.  Assertions are always valid; shards and zones check their
content. -/
def containedAssertionsAndShardsValid (outer : MessageSectionWithSig) :
    Bool × List NotificationType :=
  match outer with
  | .assertion _ => (true, [])
  | .shard sh => checkShardAssertions outer sh sh.content
  | .zone z => checkZoneContent outer z.content

/-- The control flow of `verify` for signed sections: the section reaches
`assert` (the assertion store) iff the structural check passes, a zone
additionally passes `containedShardsAreConsistent` (not part of this source,
abstracted as the boolean `zoneConsistent`), and `verifySignatures`
(abstracted as `sigsValid`) returns true.  The second component is the list
of notifications sent to the sender. -/
def verify (outer : MessageSectionWithSig) (zoneConsistent sigsValid : Bool) :
    Bool × List NotificationType :=
  let cav := containedAssertionsAndShardsValid outer
  if cav.1 then
    match outer with
    | .zone _ => if zoneConsistent then (sigsValid, cav.2) else (false, cav.2)
    | _ => (sigsValid, cav.2)
  else (false, cav.2)

/-- The range condition as the claim words it: an empty bound imposes no
constraint on that side. -/
def inRangeClaim (name : String) (sh : ShardSection) : Prop :=
  (sh.rangeFrom = "" ∨ sh.rangeFrom ≤ name) ∧ (sh.rangeTo = "" ∨ name ≤ sh.rangeTo)

/-- The consistency condition exactly as claim C2 words it: every contained
assertion shares the outer section's (context, subjectZone), and every
assertion within a shard lies in that shard's range. -/
def claimConsistent : MessageSectionWithSig → Prop
  | .assertion _ => True
  | .shard sh =>
      ∀ a ∈ sh.content,
        a.context = sh.context ∧ a.subjectZone = sh.subjectZone ∧ inRangeClaim a.subjectName sh
  | .zone z =>
      ∀ c ∈ z.content,
        match c with
        | .assertion a => a.context = z.context ∧ a.subjectZone = z.subjectZone
        | .shard sh =>
            ∀ a ∈ sh.content,
              a.context = z.context ∧ a.subjectZone = z.subjectZone ∧
                inRangeClaim a.subjectName sh

/-- `true` exactly when a shard or zone (the sections claim C2 ranges
over). -/
def MessageSectionWithSig.isComposite : MessageSectionWithSig → Bool
  | .assertion _ => false
  | _ => true

theorem containedSectionValid_true_iff (sec outer : MessageSectionWithSig) :
    (containedSectionValid sec outer).1 = true ↔
      sec.GetContext = outer.GetContext ∧ sec.GetSubjectZone = outer.GetSubjectZone := by
  unfold containedSectionValid
  split_ifs with h <;> simp [h]

theorem containedSectionInRange_true_iff (name : String) (sh : ShardSection) :
    (containedSectionInRange name sh).1 = true ↔ inRangeClaim name sh := by
  unfold containedSectionInRange inRangeClaim
  split_ifs with h
  · constructor
    · intro hfalse
      simp at hfalse
    · intro hc
      exfalso
      rcases h with ⟨hne, hlt⟩ | ⟨hne, hgt⟩
      · rcases hc.1 with he | hle
        · exact hne he
        · exact absurd hle (not_le.mpr hlt)
      · rcases hc.2 with he | hle
        · exact hne he
        · exact absurd hle (not_le.mpr hgt)
  · push_neg at h
    constructor
    · intro _
      refine ⟨?_, ?_⟩
      · by_cases he : sh.rangeFrom = ""
        · exact Or.inl he
        · exact Or.inr (h.1 he)
      · by_cases he : sh.rangeTo = ""
        · exact Or.inl he
        · exact Or.inr (h.2 he)
    · intro _
      rfl

theorem checkShardAssertions_true_iff (outer : MessageSectionWithSig)
    (sh : ShardSection) (l : List AssertionSection) :
    (checkShardAssertions outer sh l).1 = true ↔
      ∀ a ∈ l, (containedSectionValid (.assertion a) outer).1 = true ∧
        (containedSectionInRange a.subjectName sh).1 = true := by
  induction l with
  | nil => simp [checkShardAssertions]
  | cons a rest ih =>
    unfold checkShardAssertions
    by_cases h1 : (containedSectionValid (.assertion a) outer).1 = true
    · by_cases h2 : (containedSectionInRange a.subjectName sh).1 = true
      · simp [h1, h2, ih]
      · simp [h1, h2]
    · simp [h1]

theorem checkShardAssertions_false_notif (outer : MessageSectionWithSig)
    (sh : ShardSection) (l : List AssertionSection)
    (h : (checkShardAssertions outer sh l).1 = false) :
    (checkShardAssertions outer sh l).2 = [.rcvInconsistentMsg] := by
  induction l with
  | nil => simp [checkShardAssertions] at h
  | cons a rest ih =>
    unfold checkShardAssertions at h ⊢
    by_cases h1 : (containedSectionValid (.assertion a) outer).1 = true
    · by_cases h2 : (containedSectionInRange a.subjectName sh).1 = true
      · simp only [h1, h2, if_true] at h ⊢
        exact ih h
      · simp only [h1, if_true] at h ⊢
        simp only [Bool.not_eq_true] at h2
        simp [h2, containedSectionInRange] at *
        split_ifs at * <;> simp_all
    · simp only [Bool.not_eq_true] at h1
      simp [h1, containedSectionValid] at *
      split_ifs at * <;> simp_all

theorem checkZoneContent_true_iff (outer : MessageSectionWithSig)
    (l : List ZoneContent) :
    (checkZoneContent outer l).1 = true ↔
      ∀ c ∈ l,
        match c with
        | .assertion a => (containedSectionValid (.assertion a) outer).1 = true
        | .shard sh => (containedSectionValid (.shard sh) outer).1 = true ∧
            (checkShardAssertions outer sh sh.content).1 = true := by
  induction l with
  | nil => simp [checkZoneContent]
  | cons c rest ih =>
    match c with
    | .assertion a =>
      unfold checkZoneContent
      by_cases h1 : (containedSectionValid (.assertion a) outer).1 = true
      · simp [h1, ih]
      · simp [h1]
    | .shard sh =>
      unfold checkZoneContent
      by_cases h1 : (containedSectionValid (.shard sh) outer).1 = true
      · by_cases h2 : (checkShardAssertions outer sh sh.content).1 = true
        · simp [h1, h2, ih]
        · simp [h1, h2]
      · simp [h1]

theorem checkZoneContent_false_notif (outer : MessageSectionWithSig)
    (l : List ZoneContent) (h : (checkZoneContent outer l).1 = false) :
    (checkZoneContent outer l).2 = [.rcvInconsistentMsg] := by
  induction l with
  | nil => simp [checkZoneContent] at h
  | cons c rest ih =>
    match c with
    | .assertion a =>
      unfold checkZoneContent at h ⊢
      by_cases h1 : (containedSectionValid (.assertion a) outer).1 = true
      · simp only [h1, if_true] at h ⊢
        exact ih h
      · simp only [Bool.not_eq_true] at h1
        simp [h1, containedSectionValid] at *
        split_ifs at * <;> simp_all
    | .shard sh =>
      unfold checkZoneContent at h ⊢
      by_cases h1 : (containedSectionValid (.shard sh) outer).1 = true
      · by_cases h2 : (checkShardAssertions outer sh sh.content).1 = true
        · simp only [h1, h2, if_true] at h ⊢
          exact ih h
        · simp only [h1, if_true] at h ⊢
          simp only [Bool.not_eq_true] at h2
          simp only [h2, Bool.false_eq_true, if_false] at h ⊢
          exact checkShardAssertions_false_notif outer sh sh.content h2
      · simp only [Bool.not_eq_true] at h1
        simp [h1, containedSectionValid] at *
        split_ifs at * <;> simp_all

/-- The code's structural check implies the claim's consistency condition
(the code checks a superset: it also verifies contained shards' own
context/zone). -/
theorem containedValid_implies_claimConsistent (outer : MessageSectionWithSig)
    (h : (containedAssertionsAndShardsValid outer).1 = true) :
    claimConsistent outer := by
  match outer with
  | .assertion a => trivial
  | .shard sh =>
    unfold containedAssertionsAndShardsValid at h
    rw [checkShardAssertions_true_iff] at h
    intro a ha
    obtain ⟨h1, h2⟩ := h a ha
    rw [containedSectionValid_true_iff] at h1
    rw [containedSectionInRange_true_iff] at h2
    exact ⟨h1.1, h1.2, h2⟩
  | .zone z =>
    unfold containedAssertionsAndShardsValid at h
    rw [checkZoneContent_true_iff] at h
    intro c hc
    have := h c hc
    match c with
    | .assertion a =>
      simp only at this
      rw [containedSectionValid_true_iff] at this
      exact this
    | .shard sh =>
      simp only at this
      obtain ⟨h1, h2⟩ := this
      rw [checkShardAssertions_true_iff] at h2
      intro a ha
      obtain ⟨ha1, ha2⟩ := h2 a ha
      rw [containedSectionValid_true_iff] at ha1
      rw [containedSectionInRange_true_iff] at ha2
      exact ⟨ha1.1, ha1.2, ha2⟩

/-- Conversely, a violation of the claim's condition makes the code's check
fail. -/
theorem not_claimConsistent_containedValid_false (outer : MessageSectionWithSig)
    (h : ¬ claimConsistent outer) :
    (containedAssertionsAndShardsValid outer).1 = false := by
  by_contra hfalse
  simp only [Bool.not_eq_false] at hfalse
  exact h (containedValid_implies_claimConsistent outer hfalse)

/-- C2: for every shard or zone section, `verify` hands the section to the
assertion store only if every contained assertion shares the outer
section's (context, subjectZone) and, for shards, lies within the shard's
range (empty bounds unconstrained); and on any violation the section is
dropped and an `RcvInconsistentMsg` notification is sent to the sender. -/
theorem claim_C2_contained_sections_consistency
    (outer : MessageSectionWithSig) (zoneConsistent sigsValid : Bool)
    (hcomp : outer.isComposite = true) :
    ((verify outer zoneConsistent sigsValid).1 = true → claimConsistent outer) ∧
    (¬ claimConsistent outer →
      (verify outer zoneConsistent sigsValid).1 = false ∧
        NotificationType.rcvInconsistentMsg ∈ (verify outer zoneConsistent sigsValid).2) := by
  constructor
  · intro hdeliver
    apply containedValid_implies_claimConsistent
    unfold verify at hdeliver
    by_cases hcav : (containedAssertionsAndShardsValid outer).1 = true
    · exact hcav
    · simp only [Bool.not_eq_true] at hcav
      simp [hcav] at hdeliver
  · intro hclaim
    have hfalse := not_claimConsistent_containedValid_false outer hclaim
    have hnotif : (containedAssertionsAndShardsValid outer).2 = [.rcvInconsistentMsg] := by
      match outer with
      | .assertion _ => exact absurd trivial hclaim
      | .shard sh => exact checkShardAssertions_false_notif _ _ _ hfalse
      | .zone z => exact checkZoneContent_false_notif _ _ hfalse
    unfold verify
    simp [hfalse, hnotif]

/-- Witness for C2 at a concrete inconsistent shard: a shard over zone `ch`
containing an assertion whose subject zone is `ethz` is dropped and triggers
`RcvInconsistentMsg`. -/
theorem claim_C2_witness :
    (MessageSectionWithSig.shard
        ⟨[⟨"a", [], [], "ethz", "."⟩], [], "ch", ".", "", ""⟩).isComposite = true ∧
    ((verify (.shard ⟨[⟨"a", [], [], "ethz", "."⟩], [], "ch", ".", "", ""⟩) true true).1
        = false ∧
      NotificationType.rcvInconsistentMsg ∈
        (verify (.shard ⟨[⟨"a", [], [], "ethz", "."⟩], [], "ch", ".", "", ""⟩) true true).2) :=
  ⟨by decide,
    (claim_C2_contained_sections_consistency
        (.shard ⟨[⟨"a", [], [], "ethz", "."⟩], [], "ch", ".", "", ""⟩) true true
        (by decide)).2
      (by
        intro hcl
        have hz := (hcl ⟨"a", [], [], "ethz", "."⟩ (by simp)).2.1
        exact absurd hz (by decide))⟩

/-! ### Key inventory (`neededKeys` / `extractNeededKeys`) -/

/-- The identifier under which zone public keys are cached:
(context, zone, algorithm). -/
structure keyCacheKey where
  context : String
  zone : String
  keyAlgo : Nat
deriving DecidableEq, Repr

/-- Insertion into the `map[keyCacheKey]bool` used as a set by
`extractNeededKeys` (idempotent, order kept for determinism). -/
def addKey (keys : List keyCacheKey) (k : keyCacheKey) : List keyCacheKey :=
  if k ∈ keys then keys else keys ++ [k]

/-- `analyseAssertionContent`: first component — the assertion contains a
delegation object; second — all its objects are delegations. -/
def analyseAssertionContent (a : AssertionSection) : Bool × Bool :=
  a.content.foldl
    (fun p o => if o.type = ObjType.delegation then (true, p.2) else (p.1, false))
    (false, true)

/-- `Sigs()`. -/
def MessageSectionWithSig.Sigs : MessageSectionWithSig → List Signature
  | .assertion a => a.signatures
  | .shard s => s.signatures
  | .zone z => z.signatures

/-- One iteration of the signature loop in `extractNeededKeys`.  (The Go code
casts `section` to `*AssertionSection` when `isAssertion` is true; callers
guarantee the cast succeeds, so the non-assertion rows of the match are never
hit with `isAssertion = true`.) -/
def extractNeededKeysSig (sec : MessageSectionWithSig) (isAssertion : Bool)
    (keys : List keyCacheKey) (sig : Signature) : List keyCacheKey :=
  if sig.keySpace ≠ RainsKeySpace then keys
  else
    match isAssertion, sec with
    | true, .assertion a =>
      let p := analyseAssertionContent a
      let keys := if p.1 then addKey keys ⟨a.context, a.subjectName, sig.algorithm⟩ else keys
      if p.2 then keys
      else addKey keys ⟨sec.GetContext, sec.GetSubjectZone, sig.algorithm⟩
    | _, _ => addKey keys ⟨sec.GetContext, sec.GetSubjectZone, sig.algorithm⟩

/-- `extractNeededKeys`. -/
def extractNeededKeys (sec : MessageSectionWithSig) (isAssertion : Bool)
    (keys : List keyCacheKey) : List keyCacheKey :=
  sec.Sigs.foldl (extractNeededKeysSig sec isAssertion) keys

/-- `neededKeys`: dispatch over the section variants, accumulating into one
key set. -/
def neededKeys : MessageSectionWithSig → List keyCacheKey
  | .assertion a => extractNeededKeys (.assertion a) true []
  | .shard s =>
      s.content.foldl (fun ks a => extractNeededKeys (.assertion a) true ks)
        (extractNeededKeys (.shard s) false [])
  | .zone z =>
      z.content.foldl
        (fun ks c =>
          match c with
          | .assertion a => extractNeededKeys (.assertion a) true ks
          | .shard s => extractNeededKeys (.shard s) false ks)
        (extractNeededKeys (.zone z) false [])

theorem addKey_mem (keys : List keyCacheKey) (k k' : keyCacheKey) :
    k ∈ addKey keys k' ↔ k ∈ keys ∨ k = k' := by
  unfold addKey
  split_ifs with h
  · constructor
    · exact Or.inl
    · rintro (hk | rfl)
      · exact hk
      · exact h
  · simp

theorem analyseAssertionContent_allDeleg_aux (l : List Object)
    (hdel : ∀ o ∈ l, o.type = ObjType.delegation) :
    l.foldl (fun p o => if o.type = ObjType.delegation then (true, p.2) else (p.1, false))
        ((true, true) : Bool × Bool) = (true, true) := by
  induction l with
  | nil => rfl
  | cons o rest ih =>
    simp only [List.foldl_cons, hdel o (by simp), if_pos rfl]
    exact ih fun x hx => hdel x (by simp [hx])

theorem analyseAssertionContent_allDeleg (a : AssertionSection)
    (hne : a.content ≠ []) (hdel : ∀ o ∈ a.content, o.type = ObjType.delegation) :
    analyseAssertionContent a = (true, true) := by
  unfold analyseAssertionContent
  match hc : a.content with
  | [] => exact absurd hc hne
  | o :: rest =>
    have ho : o.type = ObjType.delegation := hdel o (by simp [hc])
    simp only [List.foldl_cons, ho, if_pos rfl]
    exact analyseAssertionContent_allDeleg_aux rest fun x hx => hdel x (by simp [hc, hx])

theorem extractNeededKeys_allDeleg_foldl (a : AssertionSection)
    (hp : analyseAssertionContent a = (true, true))
    (sigs : List Signature) (ks0 : List keyCacheKey) (k : keyCacheKey) :
    k ∈ sigs.foldl (extractNeededKeysSig (.assertion a) true) ks0 ↔
      k ∈ ks0 ∨ ∃ s ∈ sigs, s.keySpace = RainsKeySpace ∧
        k = ⟨a.context, a.subjectName, s.algorithm⟩ := by
  induction sigs generalizing ks0 with
  | nil => simp
  | cons s rest ih =>
    simp only [List.foldl_cons]
    rw [ih]
    by_cases hks : s.keySpace = RainsKeySpace
    · have hstep : extractNeededKeysSig (.assertion a) true ks0 s =
          addKey ks0 ⟨a.context, a.subjectName, s.algorithm⟩ := by
        unfold extractNeededKeysSig
        simp [hks, hp]
      rw [hstep, addKey_mem]
      simp only [List.exists_mem_cons_iff, hks, true_and]
      tauto
    · have hstep : extractNeededKeysSig (.assertion a) true ks0 s = ks0 := by
        unfold extractNeededKeysSig
        simp [hks]
      rw [hstep]
      simp only [List.exists_mem_cons_iff, hks, false_and]
      tauto

/-- C4 counterexample: for the all-delegation assertion
`(subjectName = "ch", subjectZone = ".", context = ".")` with one
rains-keyspace signature of algorithm 1, the required key set is
`{(".", "ch", 1)}` — keyed by the SUBJECT NAME — and does NOT contain the
parent-zone identifier `(".", ".", 1)` the claim asserts. -/
theorem claim_C4_counterexample :
    neededKeys (.assertion ⟨"ch", [⟨.delegation⟩], [⟨1, 0, 0, 10, 0⟩], ".", "."⟩) =
        [⟨".", "ch", 1⟩] ∧
      (⟨".", ".", 1⟩ : keyCacheKey) ∉
        neededKeys (.assertion ⟨"ch", [⟨.delegation⟩], [⟨1, 0, 0, 10, 0⟩], ".", "."⟩) := by
  decide

/-- C4 (amended): for an assertion with nonempty content all of whose objects
are delegations, the required key identifiers for rains-keyspace signatures
are exactly `(context, subjectName, algorithm)` — the identifier of the
delegated child zone, not of the subject zone — one per distinct signature
algorithm. -/
theorem claim_C4_delegation_assertion_keys (a : AssertionSection)
    (hne : a.content ≠ [])
    (hdel : ∀ o ∈ a.content, o.type = ObjType.delegation) (k : keyCacheKey) :
    k ∈ extractNeededKeys (.assertion a) true [] ↔
      ∃ s ∈ a.signatures, s.keySpace = RainsKeySpace ∧
        k = ⟨a.context, a.subjectName, s.algorithm⟩ := by
  unfold extractNeededKeys
  show k ∈ a.signatures.foldl (extractNeededKeysSig (.assertion a) true) [] ↔ _
  rw [extractNeededKeys_allDeleg_foldl a
    (analyseAssertionContent_allDeleg a hne hdel) a.signatures [] k]
  simp

/-- Witness for C4 (amended) at the concrete delegation assertion of the
counterexample. -/
theorem claim_C4_witness :
    (⟨".", "ch", 1⟩ : keyCacheKey) ∈
      extractNeededKeys (.assertion ⟨"ch", [⟨.delegation⟩], [⟨1, 0, 0, 10, 0⟩], ".", "."⟩)
        true [] :=
  (claim_C4_delegation_assertion_keys ⟨"ch", [⟨.delegation⟩], [⟨1, 0, 0, 10, 0⟩], ".", "."⟩
      (by decide) (by decide) ⟨".", "ch", 1⟩).mpr
    ⟨⟨1, 0, 0, 10, 0⟩, by simp, by decide, by decide⟩

/-! ### Signature validation (`validateSignatures`)

The Go loop `for i, sig := range section.Sigs()` captures the slice header
once; `DeleteSig` shifts the shared backing array in place and shortens the
field slice, while the loop keeps iterating over the original length.  The
embedding therefore carries the backing array (`backing`, of fixed original
length) and the current length of `section.Sigs()` (`cur`) separately.
`rainslib.VerifySignature` is an external primitive and is a parameter
(`crypto`), as is the algorithm-indexed key map built by
`publicKeysPresent` (`keys`; a Go map yields a zero `PublicKey` for a
missing algorithm, which `keys` may model by returning any fixed value). -/

/-- A public key as stored in the zone-key cache (uninterpreted material plus
validity window). -/
structure PublicKey where
  key : Nat
  validSince : Int
  validUntil : Int
deriving DecidableEq, Repr

/-- `DeleteSig(i)` on the current signature slice (`backing.take cur`):
Go's `append(s[:i], s[i+1:]...)` moves `s[i+1:]` one slot left inside the
shared backing array, leaving positions from `cur-1` on unchanged, and
returns a slice one shorter.  When `i + 1 > cur` the slice expression
`s[i+1:]` is out of range and Go panics (`none`). -/
def DeleteSig (backing : List Signature) (cur i : Nat) :
    Option (List Signature × Nat) :=
  if i + 1 ≤ cur then
    some (backing.take i ++ (backing.take cur).drop (i + 1) ++ backing.drop (cur - 1),
      cur - 1)
  else none

/-- The loop state of `validateSignatures`: backing array of the ranged
slice, current length of `section.Sigs()`, and the section's validity
state. -/
structure SigLoopState where
  backing : List Signature
  cur : Nat
  validity : ValidityState
deriving DecidableEq, Repr

/-- The signatures remaining on the section (`section.Sigs()`). -/
def SigLoopState.sigs (st : SigLoopState) : List Signature :=
  st.backing.take st.cur

/-- The body of the `for i, sig := range section.Sigs()` loop, iterated over
the list of indices of the originally captured slice (the caller passes
`List.range` of the original length).  Result: `none` for a Go panic,
`some (false, st)` for the early `return false` on a signature mismatch,
`some (true, st)` when the loop runs to completion. -/
def validateSigsLoop (crypto : Signature → PublicKey → Bool) (keys : Nat → PublicKey)
    (kind : SectionKind) (cfg : Config) (now : Int) :
    List Nat → SigLoopState → Option (Bool × SigLoopState)
  | [], st => some (true, st)
  | i :: rest, st =>
    let sig := st.backing.getD i ⟨0, 0, 0, 0, 0⟩
    if sig.validUntil < now then
      match DeleteSig st.backing st.cur i with
      | none => none
      | some (b, c) =>
          validateSigsLoop crypto keys kind cfg now rest ⟨b, c, st.validity⟩
    else
      let pkey := keys sig.algorithm
      if crypto sig pkey then
        validateSigsLoop crypto keys kind cfg now rest
          ⟨st.backing, st.cur,
            updateSectionValidity kind cfg st.validity
              pkey.validSince pkey.validUntil sig.validSince sig.validUntil now⟩
      else
        some (false, st)

/-- `validateSignatures`: `false` when there is no signature, when a
signature mismatches, when no verified signature yields a usable validity
window, or when no signature remains; `true` otherwise.  The final
`SigLoopState` is returned alongside so the remaining signatures and the
stored validity can be observed. -/
def validateSignatures (crypto : Signature → PublicKey → Bool) (keys : Nat → PublicKey)
    (kind : SectionKind) (cfg : Config) (now : Int)
    (sigs : List Signature) (validity : ValidityState) :
    Option (Bool × SigLoopState) :=
  if sigs.length = 0 then some (false, ⟨sigs, 0, validity⟩)
  else
    match validateSigsLoop crypto keys kind cfg now (List.range sigs.length)
        ⟨sigs, sigs.length, validity⟩ with
    | none => none
    | some (false, st) => some (false, st)
    | some (true, st) =>
      if st.validity.validSince = maxInt64 ∧ st.validity.validUntil = 0 then
        some (false, st)
      else
        some (decide (st.cur > 0), st)

/-- Example verification oracle for concrete runs: a signature verifies iff
its payload is nonzero. -/
def cryptoEx (sig : Signature) (_ : PublicKey) : Bool :=
  sig.data != 0

/-- Example key map for concrete runs: every algorithm maps to a key valid
on `[0, 300]`. -/
def keysEx (_ : Nat) : PublicKey :=
  ⟨7, 0, 300⟩

/-- Example configuration for concrete runs. -/
def cfgEx : Config :=
  ⟨1000, 1000, 1000, 1000⟩

/-- C3 (code bug): with signatures `[expired, invalid, valid]` and all keys
present, the deletion of the expired signature during `range` iteration
shifts the slice so that the invalid signature is never verified: the run
returns `true` (the section is stored) while the unverifiable signature
`⟨1, 0, 0, 200, 0⟩` is still on the section and fails `crypto` under the
stored key — contradicting both the claim and the function's own
documentation ("If at least one signatures cannot be verified with the
public key, the whole section gets dropped"). -/
theorem claim_C3_code_bug :
    validateSignatures cryptoEx keysEx .assertion cfgEx 100
        [⟨1, 0, 0, 50, 1⟩, ⟨1, 0, 0, 200, 0⟩, ⟨1, 0, 10, 200, 1⟩] ⟨0, 0⟩ =
      some (true, ⟨[⟨1, 0, 0, 200, 0⟩, ⟨1, 0, 10, 200, 1⟩, ⟨1, 0, 10, 200, 1⟩], 2, ⟨10, 200⟩⟩) ∧
    (⟨1, 0, 0, 200, 0⟩ : Signature) ∈
      (SigLoopState.mk [⟨1, 0, 0, 200, 0⟩, ⟨1, 0, 10, 200, 1⟩, ⟨1, 0, 10, 200, 1⟩] 2
        ⟨10, 200⟩).sigs ∧
    cryptoEx ⟨1, 0, 0, 200, 0⟩ (keysEx 1) = false := by
  decide

/-- C7 counterexample: at `now = 100`, the signature `⟨1, 0, 10, 100, 1⟩`
has `validUntil = now`, yet it is NOT deleted: it is verified, remains the
single signature on the section, and the section validates. -/
theorem claim_C7_counterexample :
    (Signature.mk 1 0 10 100 1).validUntil = (100 : Int) ∧
    validateSignatures cryptoEx keysEx .assertion cfgEx 100 [⟨1, 0, 10, 100, 1⟩] ⟨0, 0⟩ =
      some (true, ⟨[⟨1, 0, 10, 100, 1⟩], 1, ⟨10, 100⟩⟩) := by
  decide

theorem updateSectionValidity_fresh_validUntil_pos
    (kind : SectionKind) (cfg : Config) (ps pu ss su now : Int)
    (h1 : 0 < min pu su) (h2 : 0 < now + cfg.maxCacheValidity kind) :
    0 < (updateSectionValidity kind cfg ⟨0, 0⟩ ps pu ss su now).validUntil := by
  unfold updateSectionValidity
  simp only [UpdateValidity_eq]
  split_ifs <;> simp_all <;> omega

/-- C7 (amended): for a single-signature section in fresh state, a signature
with `validUntil` strictly BELOW `now` is treated as expired and deleted
(the section then fails with no signature left), while a signature with
`validUntil = now` is NOT expired: it stays on the section and is verified
against the stored key, the outcome being that of the cryptographic
check. -/
theorem claim_C7_expiry_is_strict
    (crypto : Signature → PublicKey → Bool) (keys : Nat → PublicKey)
    (kind : SectionKind) (cfg : Config) (now : Int) (sig : Signature)
    (hnow : 0 < now) (hpk : 0 < (keys sig.algorithm).validUntil)
    (hmv : 0 ≤ cfg.maxCacheValidity kind) :
    (sig.validUntil < now →
      validateSignatures crypto keys kind cfg now [sig] ⟨0, 0⟩ =
        some (false, ⟨[sig], 0, ⟨0, 0⟩⟩)) ∧
    (sig.validUntil = now →
      ∃ st : SigLoopState,
        validateSignatures crypto keys kind cfg now [sig] ⟨0, 0⟩ =
          some (crypto sig (keys sig.algorithm), st) ∧
        st.cur = 1 ∧ st.backing = [sig]) := by
  constructor
  · intro hexp
    unfold validateSignatures
    rw [if_neg (by simp : ¬ (List.length [sig] = 0))]
    have hloop : validateSigsLoop crypto keys kind cfg now (List.range (List.length [sig]))
        ⟨[sig], List.length [sig], ⟨0, 0⟩⟩ = some (true, ⟨[sig], 0, ⟨0, 0⟩⟩) := by
      show validateSigsLoop crypto keys kind cfg now [0] ⟨[sig], 1, ⟨0, 0⟩⟩ = _
      simp [validateSigsLoop, DeleteSig, hexp]
    rw [hloop]
    simp [maxInt64]
  · intro heq
    have hnexp : ¬ sig.validUntil < now := by omega
    by_cases hc : crypto sig (keys sig.algorithm) = true
    · refine ⟨⟨[sig], 1,
        updateSectionValidity kind cfg ⟨0, 0⟩ (keys sig.algorithm).validSince
          (keys sig.algorithm).validUntil sig.validSince sig.validUntil now⟩, ?_, rfl, rfl⟩
      have hvu : 0 < (updateSectionValidity kind cfg ⟨0, 0⟩ (keys sig.algorithm).validSince
          (keys sig.algorithm).validUntil sig.validSince sig.validUntil now).validUntil := by
        apply updateSectionValidity_fresh_validUntil_pos
        · omega
        · omega
      unfold validateSignatures
      rw [if_neg (by simp : ¬ (List.length [sig] = 0))]
      have hloop : validateSigsLoop crypto keys kind cfg now (List.range (List.length [sig]))
          ⟨[sig], List.length [sig], ⟨0, 0⟩⟩ =
          some (true, ⟨[sig], 1,
            updateSectionValidity kind cfg ⟨0, 0⟩ (keys sig.algorithm).validSince
              (keys sig.algorithm).validUntil sig.validSince sig.validUntil now⟩) := by
        show validateSigsLoop crypto keys kind cfg now [0] ⟨[sig], 1, ⟨0, 0⟩⟩ = _
        simp [validateSigsLoop, hnexp, hc]
      rw [hloop]
      have hcond : ¬ ((updateSectionValidity kind cfg ⟨0, 0⟩ (keys sig.algorithm).validSince
          (keys sig.algorithm).validUntil sig.validSince sig.validUntil now).validSince = maxInt64 ∧
        (updateSectionValidity kind cfg ⟨0, 0⟩ (keys sig.algorithm).validSince
          (keys sig.algorithm).validUntil sig.validSince sig.validUntil now).validUntil = 0) := by
        intro hcontra
        omega
      simp [hcond, hc]
    · simp only [Bool.not_eq_true] at hc
      refine ⟨⟨[sig], 1, ⟨0, 0⟩⟩, ?_, rfl, rfl⟩
      unfold validateSignatures
      rw [if_neg (by simp : ¬ (List.length [sig] = 0))]
      have hloop : validateSigsLoop crypto keys kind cfg now (List.range (List.length [sig]))
          ⟨[sig], List.length [sig], ⟨0, 0⟩⟩ = some (false, ⟨[sig], 1, ⟨0, 0⟩⟩) := by
        show validateSigsLoop crypto keys kind cfg now [0] ⟨[sig], 1, ⟨0, 0⟩⟩ = _
        simp [validateSigsLoop, hnexp, hc]
      rw [hloop]
      simp [hc]

/-- Witness for C7 (amended): an expired signature (`validUntil = 50 < 100`)
is deleted and the section fails. -/
theorem claim_C7_witness :
    validateSignatures cryptoEx keysEx .assertion cfgEx 100 [⟨1, 0, 0, 50, 1⟩] ⟨0, 0⟩ =
      some (false, ⟨[⟨1, 0, 0, 50, 1⟩], 0, ⟨0, 0⟩⟩) :=
  (claim_C7_expiry_is_strict cryptoEx keysEx .assertion cfgEx 100 ⟨1, 0, 0, 50, 1⟩
      (by decide) (by decide) (by decide)).1 (by decide)

/-! ### Pending-signature store and delegation queries

The pending-signature cache implementation is not part of this source tree
(only its caller `verifySignatures` is); its `Add` / `GetAndRemoveAll`
contract is modelled from the spec, §4.3: a bucket per (context, zone),
`Add` returns whether this is the first entry for that key, and a delegation
arrival empties the bucket. -/

/-- `getQueryValidity`: the largest signature `validUntil`, upper-bounded by
`now + Config.DelegationQueryValidity`. -/
def getQueryValidity (sigs : List Signature) (now dqv : Int) : Int :=
  let validity := sigs.foldl (fun v s => if s.validUntil > v then s.validUntil else v) 0
  let upperBound := now + dqv
  if validity > upperBound then upperBound else validity

/-- The maximum `validUntil` over a signature list, as the claim words it
(only meaningful for nonempty lists). -/
def maxSigValidity : List Signature → Int
  | [] => 0
  | s :: rest => rest.foldl (fun v x => max v x.validUntil) s.validUntil

/-- `pendingSignatureCacheValue`: the parked section together with the
expiry of the pending entry. -/
structure pendingSignatureCacheValue where
  sectionWSSender : MessageSectionWithSig
  validUntil : Int
deriving DecidableEq, Repr

/-- Modelled from the spec: the pending-signature cache contents, a list of
(context, zone)-keyed entries (the cache implementation is absent from the
source tree). -/
abbrev PendingStore := List ((String × String) × pendingSignatureCacheValue)

/-- The bucket of entries parked under one (context, zone). -/
def bucket (store : PendingStore) (k : String × String) :
    List pendingSignatureCacheValue :=
  (store.filter (fun e => e.1 = k)).map (fun e => e.2)

/-- Modelled from the spec: `pendingSignatures.Add` — appends the entry and
"returns whether this is the first entry for that key". -/
def pendingAdd (store : PendingStore) (k : String × String)
    (v : pendingSignatureCacheValue) : PendingStore × Bool :=
  (store ++ [(k, v)], decide (∀ e ∈ store, e.1 ≠ k))

/-- A delegation query as emitted by `sendQuery(context, zone, validUntil,
OTDelegation, token, delegate)`. -/
structure DelegQuery where
  context : String
  zone : String
  expires : Int
deriving DecidableEq, Repr

/-- The missing-public-key branch of `verifySignatures` (the section is
parked with `validUntil = getQueryValidity(sigs)` and, exactly when `Add`
reports the first entry for the bucket, one delegation query with that same
expiry is emitted). -/
def verifySignaturesPark (sec : MessageSectionWithSig) (now dqv : Int)
    (store : PendingStore) : PendingStore × Option DelegQuery :=
  let cacheValue : pendingSignatureCacheValue := ⟨sec, getQueryValidity sec.Sigs now dqv⟩
  let p := pendingAdd store (sec.GetContext, sec.GetSubjectZone) cacheValue
  (p.1, if p.2 then some ⟨sec.GetContext, sec.GetSubjectZone, cacheValue.validUntil⟩ else none)

theorem foldl_vu_eq_foldl_max (l : List Signature) (a : Int) :
    l.foldl (fun v s => if s.validUntil > v then s.validUntil else v) a =
      l.foldl (fun v x => max v x.validUntil) a := by
  induction l generalizing a with
  | nil => rfl
  | cons s rest ih =>
    simp only [List.foldl_cons]
    rw [ih]
    congr 1
    rw [max_def]
    split_ifs <;> omega

theorem foldl_max_mono (l : List Signature) (a b : Int) (h : a ≤ b) :
    l.foldl (fun v x => max v x.validUntil) a ≤ l.foldl (fun v x => max v x.validUntil) b := by
  induction l generalizing a b with
  | nil => simpa
  | cons s rest ih =>
    simp only [List.foldl_cons]
    exact ih _ _ (by omega)

theorem foldl_max_absorb (l : List Signature) (a b : Int) (h : a ≤ b) :
    l.foldl (fun v x => max v x.validUntil) (max b a) =
      l.foldl (fun v x => max v x.validUntil) b := by
  have : max b a = b := by omega
  rw [this]

/-- With a nonempty signature list of nonnegative `validUntil`s, the Go fold
from 0 computes the claim's maximum. -/
theorem getQueryValidity_eq_min (sigs : List Signature) (now dqv : Int)
    (hne : sigs ≠ []) (hnneg : ∀ s ∈ sigs, 0 ≤ s.validUntil) :
    getQueryValidity sigs now dqv = min (maxSigValidity sigs) (now + dqv) := by
  match sigs, hne with
  | s :: rest, _ =>
    unfold getQueryValidity maxSigValidity
    rw [foldl_vu_eq_foldl_max]
    simp only [List.foldl_cons]
    have hs : 0 ≤ s.validUntil := hnneg s (by simp)
    have h0 : max (0 : Int) s.validUntil = s.validUntil := by omega
    rw [h0, min_def]
    split_ifs <;> omega

/-- C5: a section parked because of missing public keys gets a pending entry
whose `validUntil` is `min(max over signatures of validUntil,
now + DelegationQueryValidity)`, and the delegation query — when one is
emitted — carries this same value as its expiry. -/
theorem claim_C5_pending_validity (sec : MessageSectionWithSig) (now dqv : Int)
    (store : PendingStore)
    (hne : sec.Sigs ≠ []) (hnneg : ∀ s ∈ sec.Sigs, 0 ≤ s.validUntil) :
    (verifySignaturesPark sec now dqv store).1 =
      store ++ [((sec.GetContext, sec.GetSubjectZone),
        ⟨sec, min (maxSigValidity sec.Sigs) (now + dqv)⟩)] ∧
    ∀ q ∈ (verifySignaturesPark sec now dqv store).2,
      q.expires = min (maxSigValidity sec.Sigs) (now + dqv) := by
  have hg := getQueryValidity_eq_min sec.Sigs now dqv hne hnneg
  constructor
  · unfold verifySignaturesPark pendingAdd
    simp [hg]
  · intro q hq
    unfold verifySignaturesPark pendingAdd at hq
    simp only [hg] at hq
    split_ifs at hq with hfirst
    · simp only [Option.mem_def, Option.some.injEq] at hq
      rw [← hq]
    · simp at hq

/-- Witness for C5 at a concrete section: one signature with
`validUntil = 200`, `now = 100`, `DelegationQueryValidity = 50`; the pending
entry and the query both expire at `min 200 150 = 150`. -/
theorem claim_C5_witness :
    (MessageSectionWithSig.assertion ⟨"www", [], [⟨1, 0, 0, 200, 1⟩], "ch", "."⟩).Sigs ≠ [] ∧
    (verifySignaturesPark (.assertion ⟨"www", [], [⟨1, 0, 0, 200, 1⟩], "ch", "."⟩) 100 50 []).1 =
      [((".", "ch"),
        ⟨.assertion ⟨"www", [], [⟨1, 0, 0, 200, 1⟩], "ch", "."⟩,
          min (maxSigValidity [⟨1, 0, 0, 200, 1⟩]) 150⟩)] :=
  ⟨by decide,
    by
      have h := (claim_C5_pending_validity
        (.assertion ⟨"www", [], [⟨1, 0, 0, 200, 1⟩], "ch", "."⟩) 100 50 []
        (by decide) (by decide)).1
      simpa [MessageSectionWithSig.Sigs, MessageSectionWithSig.GetContext,
        MessageSectionWithSig.GetSubjectZone] using h⟩

/-- The verifier's observable state for claim C6: the pending-signature
store together with, per (context, zone), the number of delegation queries
emitted since that bucket was last emptied. -/
structure VerifierState where
  store : PendingStore
  emitted : String × String → Nat

/-- The two transitions touching the pending store: parking a section
(`verifySignatures`, missing-key branch) and draining a bucket on delegation
arrival (spec §4.3 `getAndRemoveAll`, the corresponding engine code being
outside this source tree). -/
inductive VStep : VerifierState → VerifierState → Prop
  | park (sec : MessageSectionWithSig) (now dqv : Int) (s : VerifierState) :
      VStep s
        ⟨(verifySignaturesPark sec now dqv s.store).1,
          fun k =>
            if (verifySignaturesPark sec now dqv s.store).2.isSome ∧
                k = (sec.GetContext, sec.GetSubjectZone) then
              s.emitted k + 1
            else s.emitted k⟩
  | drain (cz : String × String) (s : VerifierState) :
      VStep s ⟨s.store.filter (fun e => e.1 ≠ cz), fun k => if k = cz then 0 else s.emitted k⟩

/-- The verifier starts with an empty pending store and no queries in
flight. -/
def initVerifierState : VerifierState := ⟨[], fun _ => 0⟩

/-- States reachable from the initial verifier state. -/
def ReachableV (s : VerifierState) : Prop :=
  Relation.ReflTransGen VStep initVerifierState s

/-- The inductive invariant: an empty bucket has no outstanding query, a
nonempty bucket exactly one. -/
def VInv (s : VerifierState) : Prop :=
  ∀ k, (bucket s.store k = [] → s.emitted k = 0) ∧
    (bucket s.store k ≠ [] → s.emitted k = 1)

theorem bucket_eq_nil_iff (store : PendingStore) (k : String × String) :
    bucket store k = [] ↔ ∀ e ∈ store, e.1 ≠ k := by
  unfold bucket
  simp [List.filter_eq_nil_iff]

theorem bucket_append_single (store : PendingStore) (κ k : String × String)
    (v : pendingSignatureCacheValue) :
    bucket (store ++ [(κ, v)]) k =
      bucket store k ++ if κ = k then [v] else [] := by
  unfold bucket
  rw [List.filter_append, List.map_append]
  congr 1
  by_cases h : κ = k <;> simp [h]

theorem bucket_filter_ne (store : PendingStore) (cz k : String × String) (h : k ≠ cz) :
    bucket (store.filter (fun e => e.1 ≠ cz)) k = bucket store k := by
  unfold bucket
  rw [List.filter_filter]
  congr 1
  apply List.filter_congr
  intro e _
  by_cases he : e.1 = k
  · simp [he, h]
  · simp [he]

theorem bucket_filter_self (store : PendingStore) (cz : String × String) :
    bucket (store.filter (fun e => e.1 ≠ cz)) cz = [] := by
  rw [bucket_eq_nil_iff]
  intro e he
  have := List.of_mem_filter he
  simpa using this

theorem park_isSome_iff (sec : MessageSectionWithSig) (now dqv : Int)
    (store : PendingStore) :
    (verifySignaturesPark sec now dqv store).2.isSome = true ↔
      bucket store (sec.GetContext, sec.GetSubjectZone) = [] := by
  unfold verifySignaturesPark pendingAdd
  rw [bucket_eq_nil_iff]
  by_cases h : ∀ e ∈ store, e.1 = (sec.GetContext, sec.GetSubjectZone) → False
  · simp only [ne_eq, h]
    simp [h]
  · simp only [ne_eq]
    constructor
    · intro hs
      simp only [decide_eq_true_eq] at hs
      split_ifs at hs with hd
      · exact fun e he => hd e he
      · simp at hs
    · intro hall
      exact absurd (fun e he => hall e he) h

theorem VInv_init : VInv initVerifierState := by
  intro k
  constructor
  · intro _
    rfl
  · intro hne
    exact absurd rfl hne

theorem VInv_step (s s' : VerifierState) (hinv : VInv s) (hstep : VStep s s') : VInv s' := by
  cases hstep with
  | park sec now dqv =>
    intro k
    by_cases hk : k = (sec.GetContext, sec.GetSubjectZone)
    · subst hk
      have hbucket : bucket (verifySignaturesPark sec now dqv s.store).1
          (sec.GetContext, sec.GetSubjectZone) =
          bucket s.store (sec.GetContext, sec.GetSubjectZone) ++
            [⟨sec, getQueryValidity sec.Sigs now dqv⟩] := by
        unfold verifySignaturesPark pendingAdd
        rw [bucket_append_single]
        simp
      constructor
      · intro hnil
        rw [hbucket] at hnil
        simp at hnil
      · intro _
        by_cases hempty : bucket s.store (sec.GetContext, sec.GetSubjectZone) = []
        · have hsome : (verifySignaturesPark sec now dqv s.store).2.isSome = true :=
            (park_isSome_iff sec now dqv s.store).mpr hempty
          have h0 := (hinv _).1 hempty
          simp [hsome, h0]
        · have hnsome : ¬ (verifySignaturesPark sec now dqv s.store).2.isSome = true := by
            rw [park_isSome_iff]
            exact hempty
          have h1 := (hinv _).2 hempty
          simp [hnsome, h1]
    · have hκk : (sec.GetContext, sec.GetSubjectZone) ≠ k := by
        intro hcontra
        exact hk hcontra.symm
      have hbucket : bucket (verifySignaturesPark sec now dqv s.store).1 k =
          bucket s.store k := by
        unfold verifySignaturesPark pendingAdd
        rw [bucket_append_single]
        simp [hκk]
      have hkne : ¬ ((verifySignaturesPark sec now dqv s.store).2.isSome = true ∧
          k = (sec.GetContext, sec.GetSubjectZone)) := fun hcontra => hk hcontra.2
      constructor
      · intro hnil
        simp only [hkne, if_false]
        exact (hinv k).1 (hbucket ▸ hnil)
      · intro hne
        simp only [hkne, if_false]
        exact (hinv k).2 (hbucket ▸ hne)
  | drain cz =>
    intro k
    by_cases hk : k = cz
    · subst hk
      constructor
      · intro _
        simp
      · intro hne
        exact absurd (bucket_filter_self s.store k) hne
    · constructor
      · intro hnil
        simp only [hk, if_false]
        exact (hinv k).1 ((bucket_filter_ne s.store cz k hk) ▸ hnil)
      · intro hne
        simp only [hk, if_false]
        exact (hinv k).2 ((bucket_filter_ne s.store cz k hk) ▸ hne)

theorem reachable_VInv (s : VerifierState) (h : ReachableV s) : VInv s := by
  induction h with
  | refl => exact VInv_init
  | tail _ hstep ih => exact VInv_step _ _ ih hstep

/-- C6: in every reachable verifier state at most one delegation query is
outstanding per (context, zone) bucket, and the park transition emits a
query if and only if the section is the first entry for its (context,
subjectZone) bucket since it was last emptied. -/
theorem claim_C6_single_delegation_query (s : VerifierState) (h : ReachableV s) :
    (∀ k, s.emitted k ≤ 1) ∧
    (∀ (sec : MessageSectionWithSig) (now dqv : Int),
      (verifySignaturesPark sec now dqv s.store).2.isSome = true ↔
        bucket s.store (sec.GetContext, sec.GetSubjectZone) = []) := by
  have hinv := reachable_VInv s h
  constructor
  · intro k
    by_cases hempty : bucket s.store k = []
    · rw [(hinv k).1 hempty]
      omega
    · rw [(hinv k).2 hempty]
  · intro sec now dqv
    exact park_isSome_iff sec now dqv s.store

/-- Witness for C6 at the (reachable) initial state with a concrete
section: no query outstanding and the park would be a first entry. -/
theorem claim_C6_witness :
    initVerifierState.emitted (".", "ch") ≤ 1 ∧
    ((verifySignaturesPark (.assertion ⟨"www", [], [⟨1, 0, 0, 200, 1⟩], "ch", "."⟩)
          100 50 initVerifierState.store).2.isSome = true ↔
      bucket initVerifierState.store (".", "ch") = []) :=
  ⟨(claim_C6_single_delegation_query initVerifierState Relation.ReflTransGen.refl).1 (".", "ch"),
    (claim_C6_single_delegation_query initVerifierState Relation.ReflTransGen.refl).2
      (.assertion ⟨"www", [], [⟨1, 0, 0, 200, 1⟩], "ch", "."⟩) 100 50⟩

end Rainsd

namespace Libresolve

/-!
Embedding of the recursive resolver (`libresolve`).  The `section`,
`object`, `query` and `util` packages it imports are absent from this source
tree; their small parts used here (`FQDN`, `Shard.InRange`, the object type
constants, `util.SendQuery`) are modelled from the spec.  `util.SendQuery`
becomes an oracle parameter mapping (address, query) to an optional answer
(`none` = network error); an address is `Option String` because a failed
redirect leaves Go's `addr` variable `nil`.  The unbounded Go loops (the
per-root walk and the name-alias recursion in `handleRedirect`) are given
explicit fuel; the claim's theorem holds for every fuel value.
-/

/-- `object.Type` constants consulted by the resolver. -/
inductive ObjType where
  | OTName
  | OTIP6Addr
  | OTIP4Addr
  | OTRedirection
  | OTDelegation
  | OTServiceInfo
  | OTOther
deriving DecidableEq, Repr

/-- `object.ServiceInfo`. -/
structure ServiceInfo where
  name : String
  port : Nat
deriving DecidableEq, Repr

/-- `object.Name` (a name alias with the object types it stands for). -/
structure NameObject where
  name : String
  types : List ObjType
deriving DecidableEq, Repr

/-- The payload of an object, as far as the resolver inspects it (Go uses
`interface{}` with type assertions). -/
inductive ObjValue where
  | str (s : String)
  | srv (si : ServiceInfo)
  | nameObj (n : NameObject)
  | raw
deriving DecidableEq, Repr

/-- An object of an assertion's content. -/
structure Obj where
  type : ObjType
  value : ObjValue
deriving DecidableEq, Repr

/-- `o.Value.(string)` (Go panics on a mismatched payload; well-formed
messages carry matching payloads, mismatches yield a default here). -/
def ObjValue.asString : ObjValue → String
  | .str s => s
  | _ => ""

/-- `o.Value.(object.ServiceInfo)`. -/
def ObjValue.asSrv : ObjValue → ServiceInfo
  | .srv si => si
  | _ => ⟨"", 0⟩

/-- `o.Value.(object.Name)`. -/
def ObjValue.asNameObj : ObjValue → NameObject
  | .nameObj n => n
  | _ => ⟨"", []⟩

/-- `section.Assertion` as used by the resolver. -/
structure Assertion where
  subjectName : String
  subjectZone : String
  context : String
  content : List Obj
deriving DecidableEq, Repr

/-- Modelled from the spec: `Assertion.FQDN` (the `section` package is
absent); it joins subject name and zone into the fully qualified name. -/
def Assertion.FQDN (a : Assertion) : String :=
  a.subjectName ++ "." ++ a.subjectZone

/-- `section.Shard` as used by the resolver. -/
structure Shard where
  subjectZone : String
  context : String
  rangeFrom : String
  rangeTo : String
  content : List Assertion
deriving DecidableEq, Repr

/-- `strings.TrimSuffix`. -/
def trimSuffix (s suf : String) : String :=
  if s.endsWith suf then s.dropRight suf.length else s

/-- Modelled from the spec: `Shard.InRange` (the `section` package is
absent); spec §3: the name must lie lexicographically within
`[rangeFrom, rangeTo]`, an empty bound meaning ±∞. -/
def Shard.InRange (sh : Shard) (name : String) : Bool :=
  decide ((sh.rangeFrom = "" ∨ sh.rangeFrom ≤ name) ∧ (sh.rangeTo = "" ∨ name ≤ sh.rangeTo))

/-- `section.Zone` as used by the resolver (its content elements are
assertions). -/
structure Zone where
  subjectZone : String
  context : String
  content : List Assertion
deriving DecidableEq, Repr

/-- `query.Name`. -/
structure QueryName where
  name : String
  context : String
  types : List ObjType
deriving DecidableEq, Repr

/-- The message sections the resolver distinguishes. -/
inductive Sect where
  | assertion (a : Assertion)
  | shard (s : Shard)
  | zone (z : Zone)
  | query (q : QueryName)
deriving DecidableEq, Repr

/-- `message.Message` as far as the resolver reads it. -/
structure Message where
  content : List Sect
deriving DecidableEq, Repr

/-- Overwriting insertion into a Go map modelled as an association list. -/
def mapPut {α : Type} (m : List (String × α)) (k : String) (v : α) :
    List (String × α) :=
  m.filter (fun e => e.1 ≠ k) ++ [(k, v)]

/-- Go map lookup. -/
def mapGet {α : Type} (m : List (String × α)) (k : String) : Option α :=
  (m.find? (fun e => e.1 = k)).map (fun e => e.2)

/-- The resolver state accumulated by `handleAnswer`: the four redirect
maps, the two classification flags, and the delegation cache
(`r.Delegations`, which `handleAssertion` populates). -/
structure AnswerState where
  redirMap : List (String × String)
  srvMap : List (String × ServiceInfo)
  ipMap : List (String × String)
  nameMap : List (String × NameObject)
  isFinal : Bool
  isRedir : Bool
  delegations : List (String × Assertion)
deriving DecidableEq, Repr

/-- One object of `handleAssertion`'s loop. -/
def handleAssertionObj (types : List ObjType) (qname : String) (a : Assertion)
    (st : AnswerState) (o : Obj) : AnswerState :=
  let st :=
    match o.type with
    | .OTRedirection =>
      let st := { st with redirMap := mapPut st.redirMap a.FQDN o.value.asString }
      if ObjType.OTRedirection ∉ types ∨ a.FQDN ≠ qname then { st with isRedir := true }
      else st
    | .OTDelegation => { st with delegations := mapPut st.delegations a.FQDN a }
    | .OTServiceInfo => { st with srvMap := mapPut st.srvMap a.FQDN o.value.asSrv }
    | .OTIP6Addr => { st with ipMap := mapPut st.ipMap a.FQDN o.value.asString }
    | .OTIP4Addr => { st with ipMap := mapPut st.ipMap a.FQDN o.value.asString }
    | .OTName => { st with nameMap := mapPut st.nameMap a.FQDN o.value.asNameObj }
    | _ => st
  if o.type ∈ types ∧ a.FQDN = qname then { st with isFinal := true } else st

/-- `handleAssertion`. -/
def handleAssertion (types : List ObjType) (qname : String) (a : Assertion)
    (st : AnswerState) : AnswerState :=
  a.content.foldl (handleAssertionObj types qname a) st

/-- `handleShard`: a shard covering the queried name answers it. -/
def handleShard (qname : String) (s : Shard) (st : AnswerState) : AnswerState :=
  if qname.endsWith s.subjectZone ∧ s.InRange (trimSuffix qname s.subjectZone) then
    { st with isFinal := true }
  else st

/-- `handleZone`. -/
def handleZone (types : List ObjType) (qname : String) (z : Zone)
    (st : AnswerState) : AnswerState :=
  let st := z.content.foldl (fun st a => handleAssertion types qname a st) st
  if qname.endsWith z.subjectZone then { st with isFinal := true } else st

/-- `handleAnswer`: classify the received message against the query,
starting from the resolver's current delegation cache. -/
def handleAnswer (deleg : List (String × Assertion)) (msg : Message)
    (q : QueryName) : AnswerState :=
  msg.content.foldl
    (fun st sec =>
      match sec with
      | .assertion a => handleAssertion q.types q.name a st
      | .shard s => handleShard q.name s st
      | .zone z => handleZone q.types q.name z st
      | .query _ => st)
    ⟨[], [], [], [], false, false, deleg⟩

/-- The constant `rainsPort`. -/
def rainsPort : Nat := 55553

/-- The constant the Go source calls `rainsPrefix` (`"_rains"`). -/
def rainsPfx : String := "_rains"

/-- `allAllowedTypes()`. -/
def allAllowedTypes : List ObjType :=
  [.OTIP6Addr, .OTIP4Addr, .OTServiceInfo, .OTName]

/-- `allowedAddrTypes()`. -/
def allowedAddrTypes : List ObjType :=
  [.OTIP6Addr, .OTIP4Addr]

/-- `strings.Split(addr.String(), ":")[0]`. -/
def addrIp (addr : String) : String :=
  (addr.splitOn ":").headD ""

/-- `handleRedirect`: resolve a redirect target down to a host address via
the ip / srv / name maps.  The name-alias recursion is unbounded in Go;
`fuel` bounds it here (`none` = the Go error return, or fuel exhausted). -/
def handleRedirect : Nat → String → List (String × ServiceInfo) →
    List (String × String) → List (String × NameObject) → List ObjType → Option String
  | 0, _, _, _, _, _ => none
  | fuel + 1, name, srvMap, ipMap, nameMap, allowedTypes =>
    let tryIp : Option String :=
      if ObjType.OTIP6Addr ∈ allowedTypes ∨ ObjType.OTIP4Addr ∈ allowedTypes then
        (mapGet ipMap name).map (fun ip => ip ++ ":" ++ toString rainsPort)
      else none
    match tryIp with
    | some addr => some addr
    | none =>
      let trySrv : Option String :=
        if ObjType.OTServiceInfo ∈ allowedTypes ∧ name.startsWith rainsPfx then
          match mapGet srvMap name with
          | some srvVal =>
            match handleRedirect fuel srvVal.name srvMap ipMap nameMap allowedAddrTypes with
            | some addr => some (addrIp addr ++ ":" ++ toString srvVal.port)
            | none => none
          | none => none
        else none
      match trySrv with
      | some addr => some addr
      | none =>
        if ObjType.OTName ∈ allowedTypes then
          match mapGet nameMap name with
          | some nameVal => handleRedirect fuel nameVal.name srvMap ipMap nameMap nameVal.types
          | none => none
        else none

/-- The `for _, name := range redirMap` loop of `recursiveResolve`: try
`handleRedirect` on each redirect target, stopping at the first success; a
failing call leaves Go's `addr` variable `nil` for the next iteration. -/
def redirLoop (rfuel : Nat) (st : AnswerState) :
    List String → Option String → Option String
  | [], addr => addr
  | n :: rest, _ =>
    match handleRedirect rfuel n st.srvMap st.ipMap st.nameMap allAllowedTypes with
    | some a => some a
    | none => redirLoop rfuel st rest none

/-- The inner `for` loop of `recursiveResolve` (one walk from a root): send
the query, classify the answer; on a final answer return the message, on a
redirect continue at the composed address, otherwise abandon the root.  The
walk also threads the delegation cache that `handleAnswer` populates. -/
def walk (oracle : Option String → QueryName → Option Message) (q : QueryName)
    (rfuel : Nat) :
    Nat → Option String → List (String × Assertion) →
      Option Message × List (String × Assertion)
  | 0, _, deleg => (none, deleg)
  | fuel + 1, addr, deleg =>
    match oracle addr q with
    | none => (none, deleg)
    | some answer =>
      if answer.content.isEmpty then (none, deleg)
      else
        let st := handleAnswer deleg answer q
        if st.isFinal then (some answer, st.delegations)
        else if st.isRedir then
          walk oracle q rfuel fuel (redirLoop rfuel st (st.redirMap.map (fun e => e.2)) addr)
            st.delegations
        else (none, st.delegations)

/-- The outer loop of `recursiveResolve` over the configured root name
servers. -/
def rootsLoop (oracle : Option String → QueryName → Option Message) (q : QueryName)
    (fuel rfuel : Nat) :
    List String → List (String × Assertion) → Except String Message
  | [], _ =>
      .error ("Was not able to obtain an answer through a recursive lookup for query: " ++ q.name)
  | root :: rest, deleg =>
    match walk oracle q rfuel fuel (some root) deleg with
    | (some answer, _) => .ok answer
    | (none, deleg') => rootsLoop oracle q fuel rfuel rest deleg'

/-- `Resolver.recursiveResolve`: answer a delegation query from the cache
when possible, otherwise walk from each root in turn; fail once every root
is exhausted. -/
def recursiveResolve (roots : List String) (deleg : List (String × Assertion))
    (oracle : Option String → QueryName → Option Message) (fuel rfuel : Nat)
    (q : QueryName) : Except String Message :=
  if ObjType.OTDelegation ∈ q.types then
    match mapGet deleg q.name with
    | some a => .ok ⟨[.assertion a]⟩
    | none => rootsLoop oracle q fuel rfuel roots deleg
  else rootsLoop oracle q fuel rfuel roots deleg

theorem walk_no_final (oracle : Option String → QueryName → Option Message)
    (q : QueryName) (rfuel : Nat)
    (hnofinal : ∀ addr msg, oracle addr q = some msg →
      ∀ dl, (handleAnswer dl msg q).isFinal = false) :
    ∀ (fuel : Nat) (addr : Option String) (deleg : List (String × Assertion)),
      (walk oracle q rfuel fuel addr deleg).1 = none := by
  intro fuel
  induction fuel with
  | zero => intro addr deleg; rfl
  | succ fuel ih =>
    intro addr deleg
    unfold walk
    match horacle : oracle addr q with
    | none => rfl
    | some answer =>
      simp only
      by_cases hempty : answer.content.isEmpty
      · simp [hempty]
      · have hfin := hnofinal addr answer horacle deleg
        simp only [hempty, if_false, hfin, Bool.false_eq_true]
        by_cases hredir : (handleAnswer deleg answer q).isRedir = true
        · simp [hredir, ih]
        · simp only [Bool.not_eq_true] at hredir
          simp [hredir]

theorem rootsLoop_no_final (oracle : Option String → QueryName → Option Message)
    (q : QueryName) (fuel rfuel : Nat)
    (hnofinal : ∀ addr msg, oracle addr q = some msg →
      ∀ dl, (handleAnswer dl msg q).isFinal = false) :
    ∀ (roots : List String) (deleg : List (String × Assertion)),
      rootsLoop oracle q fuel rfuel roots deleg =
        .error ("Was not able to obtain an answer through a recursive lookup for query: "
          ++ q.name) := by
  intro roots
  induction roots with
  | nil => intro deleg; rfl
  | cons root rest ih =>
    intro deleg
    unfold rootsLoop
    have hw := walk_no_final oracle q rfuel hnofinal fuel (some root) deleg
    match hwalk : walk oracle q rfuel fuel (some root) deleg with
    | (some answer, d) =>
      rw [hwalk] at hw
      simp at hw
    | (none, d) => exact ih d

/-- C8: when the delegation-cache shortcut does not apply and no queried
server (root or redirect target) ever returns an answer classified as
final, `recursiveResolve` returns the "no answer obtainable" error — for
every fuel bound on the walk and on the redirect recursion. -/
theorem claim_C8_exhaustion_error (roots : List String)
    (deleg : List (String × Assertion))
    (oracle : Option String → QueryName → Option Message) (fuel rfuel : Nat)
    (q : QueryName)
    (hshort : ObjType.OTDelegation ∈ q.types → mapGet deleg q.name = none)
    (hnofinal : ∀ addr msg, oracle addr q = some msg →
      ∀ dl, (handleAnswer dl msg q).isFinal = false) :
    recursiveResolve roots deleg oracle fuel rfuel q =
      .error ("Was not able to obtain an answer through a recursive lookup for query: "
        ++ q.name) := by
  unfold recursiveResolve
  have hloop := rootsLoop_no_final oracle q fuel rfuel hnofinal roots deleg
  by_cases hdel : ObjType.OTDelegation ∈ q.types
  · simp only [hdel, if_true]
    rw [hshort hdel]
    exact hloop
  · simp only [hdel, if_false]
    exact hloop

/-- Witness for C8: one root, an oracle that always errors, a non-delegation
query; the resolver reports that no answer was obtainable. -/
theorem claim_C8_witness :
    recursiveResolve ["root"] [] (fun _ _ => none) 3 3 ⟨"www.ch", ".", [.OTIP4Addr]⟩ =
      .error ("Was not able to obtain an answer through a recursive lookup for query: "
        ++ "www.ch") :=
  claim_C8_exhaustion_error ["root"] [] (fun _ _ => none) 3 3 ⟨"www.ch", ".", [.OTIP4Addr]⟩
    (by decide)
    (fun addr msg h dl => by simp at h)

end Libresolve

namespace Msg

/-!
Embedding of `RainsMessage.MarshalCBOR` / `UnmarshalCBOR` (message.go).
CBOR data items are modelled by the inductive `Cbor`.  The `borat` CBOR
library and the section-body codecs (`UnmarshalMap` and the sections' own
marshallers) are not part of this source tree; the bodies are modelled from
the spec ("each section body is itself an integer-keyed map whose fields
follow the RAINS protocol definition", §6) as inverse pairs of integer-keyed
map codecs over representative fields, and the 16-byte token is modelled as
the array of its byte values, matching how `UnmarshalCBOR` reads it
(`byte(val.(uint64))` per element).  Go panics from failed type assertions
are modelled as decode errors. -/

/-- A CBOR data item as used by the message codec. -/
inductive Cbor where
  | int (n : Int)
  | text (s : String)
  | arr (l : List Cbor)
  | map (l : List (Int × Cbor))
  | tag (t : Nat) (v : Cbor)

/-- `signature.Signature`: algorithm, keyspace, keyphase, validity window
and the raw signature payload (kept as an uninterpreted CBOR item, as the
Go decoder does with `sig[5]`). -/
structure Signature where
  algorithm : Int
  keySpace : Int
  keyPhase : Int
  validSince : Int
  validUntil : Int
  data : Cbor

/-- Modelled from the spec: `sections.AssertionSection` with its wire
fields (the sections package is absent from this source tree). -/
structure AssertionSection where
  subjectName : String
  subjectZone : String
  context : String
  signatures : List Signature

/-- Modelled from the spec: `sections.ShardSection` wire fields. -/
structure ShardSection where
  subjectZone : String
  context : String
  rangeFrom : String
  rangeTo : String

/-- Modelled from the spec: `sections.ZoneSection` wire fields. -/
structure ZoneSection where
  subjectZone : String
  context : String

/-- Modelled from the spec: `sections.QuerySection` wire fields. -/
structure QuerySection where
  name : String
  context : String
  expires : Int

/-- Modelled from the spec: `sections.NotificationSection` wire fields. -/
structure NotificationSection where
  notifType : Int
  data : String

/-- The five section variants `MarshalCBOR` accepts (address sections make
it return an error and are outside the claim's well-formed domain). -/
inductive MessageSection where
  | assertion (a : AssertionSection)
  | shard (s : ShardSection)
  | zone (z : ZoneSection)
  | query (q : QuerySection)
  | notification (n : NotificationSection)

/-- `message.RainsMessage`. -/
structure RainsMessage where
  capabilities : List String
  token : List Nat
  content : List MessageSection
  signatures : List Signature

/-- Encoding of one signature: the five common elements followed by the
payload (spec §6: `[alg, keySpace, keyPhase, validSince, validUntil,
data]`). -/
def encodeSig (s : Signature) : Cbor :=
  .arr [.int s.algorithm, .int s.keySpace, .int s.keyPhase, .int s.validSince,
    .int s.validUntil, s.data]

/-- Decoding of one signature, mirroring the index accesses
`sig[0] … sig[5]` of `UnmarshalCBOR` (mismatches panic in Go). -/
def decodeSig : Cbor → Except String Signature
  | .arr [.int alg, .int ks, .int kp, .int vs, .int vu, data] =>
      .ok ⟨alg, ks, kp, vs, vu, data⟩
  | _ => .error "panic: malformed signature array"

def decodeSigList : List Cbor → Except String (List Signature)
  | [] => .ok []
  | c :: rest =>
    match decodeSig c with
    | .error e => .error e
    | .ok s =>
      match decodeSigList rest with
      | .error e => .error e
      | .ok l => .ok (s :: l)

/-- Lookup in an integer-keyed CBOR map. -/
def lookupInt (l : List (Int × Cbor)) (k : Int) : Option Cbor :=
  (l.find? (fun e => e.1 = k)).map (fun e => e.2)

/-- Modelled from the spec: assertion body codec (integer-keyed map). -/
def encodeAssertionBody (a : AssertionSection) : Cbor :=
  .map [(0, .text a.subjectName), (1, .text a.subjectZone), (2, .text a.context),
    (3, .arr (a.signatures.map encodeSig))]

def decodeAssertionBody : Cbor → Except String AssertionSection
  | .map entries =>
    match lookupInt entries 0, lookupInt entries 1, lookupInt entries 2,
        lookupInt entries 3 with
    | some (.text n), some (.text z), some (.text ctx), some (.arr sigs) =>
      match decodeSigList sigs with
      | .error e => .error e
      | .ok ss => .ok ⟨n, z, ctx, ss⟩
    | _, _, _, _ => .error "malformed assertion body"
  | _ => .error "malformed assertion body"

/-- Modelled from the spec: shard body codec. -/
def encodeShardBody (s : ShardSection) : Cbor :=
  .map [(0, .text s.subjectZone), (1, .text s.context), (2, .text s.rangeFrom),
    (3, .text s.rangeTo)]

def decodeShardBody : Cbor → Except String ShardSection
  | .map entries =>
    match lookupInt entries 0, lookupInt entries 1, lookupInt entries 2,
        lookupInt entries 3 with
    | some (.text z), some (.text ctx), some (.text rf), some (.text rt) =>
        .ok ⟨z, ctx, rf, rt⟩
    | _, _, _, _ => .error "malformed shard body"
  | _ => .error "malformed shard body"

/-- Modelled from the spec: zone body codec. -/
def encodeZoneBody (z : ZoneSection) : Cbor :=
  .map [(0, .text z.subjectZone), (1, .text z.context)]

def decodeZoneBody : Cbor → Except String ZoneSection
  | .map entries =>
    match lookupInt entries 0, lookupInt entries 1 with
    | some (.text zn), some (.text ctx) => .ok ⟨zn, ctx⟩
    | _, _ => .error "malformed zone body"
  | _ => .error "malformed zone body"

/-- Modelled from the spec: query body codec. -/
def encodeQueryBody (q : QuerySection) : Cbor :=
  .map [(0, .text q.name), (1, .text q.context), (2, .int q.expires)]

def decodeQueryBody : Cbor → Except String QuerySection
  | .map entries =>
    match lookupInt entries 0, lookupInt entries 1, lookupInt entries 2 with
    | some (.text n), some (.text ctx), some (.int e) => .ok ⟨n, ctx, e⟩
    | _, _, _ => .error "malformed query body"
  | _ => .error "malformed query body"

/-- Modelled from the spec: notification body codec. -/
def encodeNotificationBody (n : NotificationSection) : Cbor :=
  .map [(0, .int n.notifType), (1, .text n.data)]

def decodeNotificationBody : Cbor → Except String NotificationSection
  | .map entries =>
    match lookupInt entries 0, lookupInt entries 1 with
    | some (.int t), some (.text d) => .ok ⟨t, d⟩
    | _, _ => .error "malformed notification body"
  | _ => .error "malformed notification body"

/-- One `[typeCode, body]` pair of the sections array, with the type codes
of `MarshalCBOR`: 1 assertion, 2 shard, 3 zone, 4 query, 23
notification. -/
def encodeSection : MessageSection → Cbor
  | .assertion a => .arr [.int 1, encodeAssertionBody a]
  | .shard s => .arr [.int 2, encodeShardBody s]
  | .zone z => .arr [.int 3, encodeZoneBody z]
  | .query q => .arr [.int 4, encodeQueryBody q]
  | .notification n => .arr [.int 23, encodeNotificationBody n]

/-- The sections loop of `UnmarshalCBOR`: the switch has no default case,
so an unknown type code is silently skipped; a malformed element panics. -/
def decodeSectionList : List Cbor → Except String (List MessageSection)
  | [] => .ok []
  | .arr [.int t, body] :: rest =>
    if t = 1 then
      match decodeAssertionBody body, decodeSectionList rest with
      | .ok a, .ok l => .ok (.assertion a :: l)
      | .error e, _ => .error e
      | _, .error e => .error e
    else if t = 2 then
      match decodeShardBody body, decodeSectionList rest with
      | .ok s, .ok l => .ok (.shard s :: l)
      | .error e, _ => .error e
      | _, .error e => .error e
    else if t = 3 then
      match decodeZoneBody body, decodeSectionList rest with
      | .ok z, .ok l => .ok (.zone z :: l)
      | .error e, _ => .error e
      | _, .error e => .error e
    else if t = 4 then
      match decodeQueryBody body, decodeSectionList rest with
      | .ok q, .ok l => .ok (.query q :: l)
      | .error e, _ => .error e
      | _, .error e => .error e
    else if t = 23 then
      match decodeNotificationBody body, decodeSectionList rest with
      | .ok n, .ok l => .ok (.notification n :: l)
      | .error e, _ => .error e
      | _, .error e => .error e
    else decodeSectionList rest
  | _ :: _ => .error "panic: malformed section element"

/-- Encoding of one token byte as an unsigned CBOR integer. -/
def encodeTokenByte (b : Nat) : Cbor :=
  Cbor.int (Int.ofNat b)

/-- `MarshalCBOR`: tag `0xE99BA8` over an integer-keyed map with signatures
at key 0 (only when nonempty), capabilities at key 1 (only when nonempty),
the token at key 2 and the `[typeCode, body]` section pairs at key 23. -/
def MarshalCBOR (m : RainsMessage) : Cbor :=
  .tag 0xE99BA8 (.map (
    (if m.signatures.isEmpty then [] else
      [((0 : Int), Cbor.arr (m.signatures.map encodeSig))]) ++
    (if m.capabilities.isEmpty then [] else
      [((1 : Int), Cbor.arr (m.capabilities.map Cbor.text))]) ++
    [((2 : Int), Cbor.arr (m.token.map encodeTokenByte))] ++
    [((23 : Int), Cbor.arr (m.content.map encodeSection))]))

def decodeSigsEntry : Option Cbor → Except String (List Signature)
  | none => .ok []
  | some (.arr l) => decodeSigList l
  | some _ => .error "panic: signatures not an array"

def decodeCapList : List Cbor → Except String (List String)
  | [] => .ok []
  | .text s :: rest =>
    match decodeCapList rest with
    | .error e => .error e
    | .ok l => .ok (s :: l)
  | _ :: _ => .error "panic: capability not a string"

def decodeCapsEntry : Option Cbor → Except String (List String)
  | none => .ok []
  | some (.arr l) => decodeCapList l
  | some _ => .error "panic: capabilities not an array"

/-- The token loop `rm.Token[i] = byte(val.(uint64))`. -/
def decodeTokenList : List Cbor → Except String (List Nat)
  | [] => .ok []
  | .int n :: rest =>
    match decodeTokenList rest with
    | .error e => .error e
    | .ok l => .ok (n.toNat % 256 :: l)
  | _ :: _ => .error "panic: token element not an unsigned integer"

def decodeTokenEntry : Option Cbor → Except String (List Nat)
  | none => .error "token missing from RAINS message"
  | some (.arr l) => decodeTokenList l
  | some _ => .error "panic: token not an array"

def decodeSectionsEntry : Option Cbor → Except String (List MessageSection)
  | none => .error "panic: read of missing sections key"
  | some (.arr l) => decodeSectionList l
  | some _ => .error "panic: sections not an array"

/-- `UnmarshalCBOR`: check the tag, read the integer-keyed map, decode keys
0 (optional), 1 (optional), 2 (mandatory) and 23. -/
def UnmarshalCBOR (c : Cbor) : Except String RainsMessage :=
  match c with
  | .tag t inner =>
    if t ≠ 0xE99BA8 then .error "expected tag for RAINS message but got another"
    else
      match inner with
      | .map entries =>
        match decodeSigsEntry (lookupInt entries 0) with
        | .error e => .error e
        | .ok sigs =>
          match decodeCapsEntry (lookupInt entries 1) with
          | .error e => .error e
          | .ok caps =>
            match decodeTokenEntry (lookupInt entries 2) with
            | .error e => .error e
            | .ok tok =>
              match decodeSectionsEntry (lookupInt entries 23) with
              | .error e => .error e
              | .ok secs => .ok ⟨caps, tok, secs, sigs⟩
      | _ => .error "failed to read map"
  | _ => .error "failed to read tag"

theorem decodeSig_enc (s : Signature) : decodeSig (encodeSig s) = .ok s := rfl

theorem decodeSigList_enc (l : List Signature) :
    decodeSigList (l.map encodeSig) = .ok l := by
  induction l with
  | nil => rfl
  | cons s rest ih =>
    simp only [List.map_cons, decodeSigList, decodeSig_enc, ih]

theorem decodeCapList_enc (l : List String) :
    decodeCapList (l.map Cbor.text) = .ok l := by
  induction l with
  | nil => rfl
  | cons s rest ih =>
    simp only [List.map_cons, decodeCapList, ih]

theorem decodeTokenList_enc (l : List Nat) (h : ∀ b ∈ l, b < 256) :
    decodeTokenList (l.map encodeTokenByte) = .ok l := by
  induction l with
  | nil => rfl
  | cons b rest ih =>
    have hb : b < 256 := h b (by simp)
    have hrest := ih fun x hx => h x (by simp [hx])
    show (match decodeTokenList (rest.map encodeTokenByte) with
      | Except.error e => Except.error e
      | Except.ok l => Except.ok ((Int.ofNat b).toNat % 256 :: l)) = Except.ok (b :: rest)
    rw [hrest]
    simp [Nat.mod_eq_of_lt hb]

theorem decodeAssertionBody_enc (a : AssertionSection) :
    decodeAssertionBody (encodeAssertionBody a) = .ok a := by
  unfold encodeAssertionBody decodeAssertionBody
  simp [lookupInt, List.find?, decodeSigList_enc]

theorem decodeShardBody_enc (s : ShardSection) :
    decodeShardBody (encodeShardBody s) = .ok s := rfl

theorem decodeZoneBody_enc (z : ZoneSection) :
    decodeZoneBody (encodeZoneBody z) = .ok z := rfl

theorem decodeQueryBody_enc (q : QuerySection) :
    decodeQueryBody (encodeQueryBody q) = .ok q := rfl

theorem decodeNotificationBody_enc (n : NotificationSection) :
    decodeNotificationBody (encodeNotificationBody n) = .ok n := rfl

theorem decodeSectionList_enc (l : List MessageSection) :
    decodeSectionList (l.map encodeSection) = .ok l := by
  induction l with
  | nil => rfl
  | cons sec rest ih =>
    match sec with
    | .assertion a =>
      simp [encodeSection, decodeSectionList, decodeAssertionBody_enc, ih]
    | .shard s =>
      simp [encodeSection, decodeSectionList, decodeShardBody_enc, ih]
    | .zone z =>
      simp [encodeSection, decodeSectionList, decodeZoneBody_enc, ih]
    | .query q =>
      simp [encodeSection, decodeSectionList, decodeQueryBody_enc, ih]
    | .notification n =>
      simp [encodeSection, decodeSectionList, decodeNotificationBody_enc, ih]

/-- C9: for every well-formed message (16-byte token), decoding the
encoding reconstructs the message: the tag is `0xE99BA8`, signatures sit at
key 0 when nonempty, capabilities at key 1 when nonempty, the token at key
2, and the sections at key 23 as `[typeCode, body]` pairs with codes
1/2/3/4/23. -/
theorem claim_C9_cbor_roundtrip (m : RainsMessage)
    (hlen : m.token.length = 16) (hbytes : ∀ b ∈ m.token, b < 256) :
    UnmarshalCBOR (MarshalCBOR m) = .ok m := by
  have htok := decodeTokenList_enc m.token hbytes
  unfold MarshalCBOR UnmarshalCBOR
  by_cases hsig : m.signatures.isEmpty
  · have hsnil : m.signatures = [] := List.isEmpty_iff.mp hsig
    by_cases hcap : m.capabilities.isEmpty
    · have hcnil : m.capabilities = [] := List.isEmpty_iff.mp hcap
      simp [hsig, hcap, lookupInt, List.find?, decodeSigsEntry, decodeCapsEntry,
        decodeTokenEntry, decodeSectionsEntry, htok, decodeSectionList_enc, hsnil, hcnil]
      rw [← hsnil, ← hcnil]
    · simp [hsig, hcap, lookupInt, List.find?, decodeSigsEntry, decodeCapsEntry,
        decodeTokenEntry, decodeSectionsEntry, htok, decodeSectionList_enc,
        decodeCapList_enc, hsnil]
      rw [← hsnil]
  · by_cases hcap : m.capabilities.isEmpty
    · have hcnil : m.capabilities = [] := List.isEmpty_iff.mp hcap
      simp [hsig, hcap, lookupInt, List.find?, decodeSigsEntry, decodeCapsEntry,
        decodeTokenEntry, decodeSectionsEntry, htok, decodeSectionList_enc,
        decodeSigList_enc, hcnil]
      rw [← hcnil]
    · simp [hsig, hcap, lookupInt, List.find?, decodeSigsEntry, decodeCapsEntry,
        decodeTokenEntry, decodeSectionsEntry, htok, decodeSectionList_enc,
        decodeSigList_enc, decodeCapList_enc]

/-- Witness for C9 at a concrete message containing one section of each
kind, one signature and one capability. -/
theorem claim_C9_witness :
    (RainsMessage.mk ["urn:x-rains:tlssrv"] [0, 1, 2, 3, 4, 5, 6, 7, 8, 9, 10, 11, 12, 13, 14, 255]
        [.assertion ⟨"ch", ".", ".", [⟨1, 0, 2, 10, 20, .int 7⟩]⟩,
          .shard ⟨"ch", ".", "a", "m"⟩, .zone ⟨"ch", "."⟩,
          .query ⟨"www.ch", ".", 99⟩, .notification ⟨400, "ok"⟩]
        [⟨1, 0, 5, 0, 50, .int 9⟩]).token.length = 16 ∧
    UnmarshalCBOR (MarshalCBOR
      (RainsMessage.mk ["urn:x-rains:tlssrv"] [0, 1, 2, 3, 4, 5, 6, 7, 8, 9, 10, 11, 12, 13, 14, 255]
        [.assertion ⟨"ch", ".", ".", [⟨1, 0, 2, 10, 20, .int 7⟩]⟩,
          .shard ⟨"ch", ".", "a", "m"⟩, .zone ⟨"ch", "."⟩,
          .query ⟨"www.ch", ".", 99⟩, .notification ⟨400, "ok"⟩]
        [⟨1, 0, 5, 0, 50, .int 9⟩])) =
      .ok (RainsMessage.mk ["urn:x-rains:tlssrv"] [0, 1, 2, 3, 4, 5, 6, 7, 8, 9, 10, 11, 12, 13, 14, 255]
        [.assertion ⟨"ch", ".", ".", [⟨1, 0, 2, 10, 20, .int 7⟩]⟩,
          .shard ⟨"ch", ".", "a", "m"⟩, .zone ⟨"ch", "."⟩,
          .query ⟨"www.ch", ".", 99⟩, .notification ⟨400, "ok"⟩]
        [⟨1, 0, 5, 0, 50, .int 9⟩]) :=
  ⟨rfl,
    claim_C9_cbor_roundtrip _ rfl (by decide)⟩

end Msg
